import Mathlib

/-!
Verification development for the ai_translator translation pipeline
(src/unnamed/part_001, src/scripts/translate.js).

Modelling conventions (shallow embedding):
* The placeholder codec is embedded twice.  The faithful embedding works on
  UTF-16 code units (`List Nat`), because the source builds its regexes
  without the `u` flag, so they operate unit-wise (surrogate halves and all);
  the round-trip claim is settled there.  A scalar-level (`String`)
  abstraction of the same codec is used inside the pipeline model — where
  the payload contents are incidental — and for comparing the two source
  files' textually identical codecs.
* `String.prototype.toUpperCase` on a single character is modelled by the
  ASCII `Char.toUpper`; all concrete inputs below are ASCII.
* The remote HTTP service is an oracle `Env.net`, indexed by the number of
  calls already made; the trace of payloads sent is threaded explicitly, so
  "the client was invoked" is observable.
* `process.exit(1)` is the `POut.exit1` outcome; a thrown JS exception is an
  `Except.error`.
-/

/-- The marker character U+1F0DF used as both `PLACEHOLDER_PREFIX` and
`PLACEHOLDER_SUFFIX` in the source. -/
def phChar : Char := Char.ofNat 0x1F0DF

/-- First scalar of `CHAR_SEPARATOR` ("❤️" = U+2764 U+FE0F). -/
def sepA : Char := Char.ofNat 0x2764

/-- Second scalar of `CHAR_SEPARATOR`. -/
def sepB : Char := Char.ofNat 0xFE0F

/-- JS `Array.prototype.join(sep)` on a list of strings (as char lists). -/
def joinSep (sep : List Char) : List (List Char) → List Char
  | [] => []
  | [x] => x
  | x :: y :: ys => x ++ sep ++ joinSep sep (y :: ys)

/-- JS `Array.prototype.join("")` (concatenation of all chunks). -/
def joinAll : List (List Char) → List Char
  | [] => []
  | x :: xs => x ++ joinAll xs

/-- JS `String.prototype.split(sep)` specialised to the two-scalar separator
`CHAR_SEPARATOR = [sepA, sepB]`: leftmost-first, non-overlapping splitting. -/
def jsSplit2 (a b : Char) : List Char → List (List Char)
  | [] => [[]]
  | [c] => [[c]]
  | c :: c2 :: cs =>
    if c = a ∧ c2 = b then [] :: jsSplit2 a b cs
    else
      match jsSplit2 a b (c2 :: cs) with
      | [] => [[c]]
      | g :: gs => (c :: g) :: gs

/--
State machine equivalent of the source's global regex replace
`text.replace(/\x7b([^\x7d]+)\x7d/g, m => PREFIX + param.split("").join(SEP) + SUFFIX)`
(`maskPlaceholders`, part_001 lines 42-51).  `none` = scanning ordinary text;
`some acc` = a `\x7b` has been opened and `acc` holds the (reversed) name
characters read so far.  On `\x7d` with a nonempty name the placeholder is
replaced by `PREFIX ++ name-chars-joined-by-SEP ++ SUFFIX` and the name is
pushed; an empty name or an unclosed `\x7b` is literal text, exactly as the
regex (whose name part is `[^\x7d]+`, one or more) behaves.

This version abstracts JS strings by their Unicode scalar values; JS itself
operates on UTF-16 code units (`param.split("")` splits astral characters
into surrogate halves).  The faithful code-unit embedding is `mask16Go`
below; this scalar version serves the pipeline model and the codec
comparison of the two source files, where the two views cannot differ.
-/
def maskGo : Option (List Char) → List Char → List Char × List (List Char)
  | none, [] => ([], [])
  | none, c :: cs =>
    if c = '{' then maskGo (some []) cs
    else
      let r := maskGo none cs
      (c :: r.1, r.2)
  | some acc, [] => ('{' :: acc.reverse, [])
  | some acc, c :: cs =>
    if c = '}' then
      match acc with
      | [] =>
        let r := maskGo none cs
        ('{' :: '}' :: r.1, r.2)
      | _ =>
        let r := maskGo none cs
        (phChar :: (joinSep [sepA, sepB] (acc.reverse.map (fun ch => [ch])) ++
          phChar :: r.1), acc.reverse :: r.2)
    else maskGo (some (c :: acc)) cs

/--
State machine equivalent of the source's global regex replace in
`unmaskPlaceholders` (part_001 lines 54-64): the pattern is
`PREFIX ([^PREFIX/SUFFIX]+) SUFFIX` with `PREFIX = SUFFIX = phChar`, and a
match is replaced by `\x7b ++ inner.split(SEP).join("") ++ \x7d`.  `none` =
scanning; `some acc` = an opening marker was seen and `acc` holds the
(reversed) inner characters so far.  An adjacent second marker (empty inner)
leaves the first marker literal and restarts a candidate match at the second,
exactly as the regex engine advances by one position on a failed match.

This version abstracts JS strings by their Unicode scalar values; JS itself
matches the `u`-flag-less regex on UTF-16 code units, where the class
excludes the two surrogate units separately.  The faithful code-unit
embedding is `unmask16Go` below; this scalar version serves the pipeline
model and the codec comparison of the two source files.
-/
def unmaskGo : Option (List Char) → List Char → List Char
  | none, [] => []
  | none, c :: cs =>
    if c = phChar then unmaskGo (some []) cs
    else c :: unmaskGo none cs
  | some acc, [] => phChar :: acc.reverse
  | some acc, c :: cs =>
    if c = phChar then
      match acc with
      | [] => phChar :: unmaskGo (some []) cs
      | _ => '{' :: (joinAll (jsSplit2 sepA sepB acc.reverse) ++
          '}' :: unmaskGo none cs)
    else unmaskGo (some (c :: acc)) cs

/-- `maskPlaceholders` of part_001 (lines 42-51): returns the masked text and
the list of extracted parameter names, in occurrence order. -/
def maskPlaceholders (text : String) : String × List String :=
  let r := maskGo none text.data
  (String.mk r.1, r.2.map String.mk)

/-- `unmaskPlaceholders` of part_001 (lines 54-64). -/
def unmaskPlaceholders (text : String) : String :=
  String.mk (unmaskGo none text.data)

/-- `MAX_RETRIES` (part_001 line 10). -/
def MAX_RETRIES : Nat := 10

/-- `getRetryDelay` (part_001 lines 83-85) over the `RETRY_DELAYS` table
(lines 13-17): `RETRY_DELAYS[status] || 5000`. -/
def getRetryDelay (status : Nat) : Nat :=
  if status = 429 then 5000
  else if status = 500 then 10000
  else if status = 400 then 3000
  else 5000

example : maskPlaceholders (String.mk ['a', '{', 'b', 'c', '}', 'd']) =
    (String.mk ['a', phChar, 'b', sepA, sepB, 'c', phChar, 'd'],
     [String.mk ['b', 'c']]) := by decide

example : unmaskPlaceholders
    (String.mk ['a', phChar, 'b', sepA, sepB, 'c', phChar, 'd']) =
    String.mk ['a', '{', 'b', 'c', '}', 'd'] := by decide


/-!
The scalar-level codec above abstracts JS strings by their Unicode scalar
values; it is kept as the abstraction used inside the pipeline model, where
the payload contents are incidental, and for comparing the two source
files' textually identical codecs (claim C10).  JS itself builds these
regexes without the `u` flag, so they operate on UTF-16 code units: the
unmasking class excludes the individual surrogate units 0xD83C and 0xDCDF,
and `param.split("")` splits astral characters into surrogate halves.  The
round-trip claim (C1) is therefore settled over the following faithful
code-unit embedding, in which a JS string is its list of UTF-16 code units
(a `List Nat`).
-/

/-- High surrogate unit of the marker character U+1F0DF. -/
def phHi : Nat := 0xD83C

/-- Low surrogate unit of the marker character U+1F0DF. -/
def phLo : Nat := 0xDCDF

/-- Code unit of U+2764, first unit of `CHAR_SEPARATOR`. -/
def sepHeart : Nat := 0x2764

/-- Code unit of U+FE0F, second unit of `CHAR_SEPARATOR`. -/
def sepVs : Nat := 0xFE0F

/-- UTF-16 encoding of a Lean string: scalars below 0x10000 are one code
unit, astral scalars become a surrogate pair. -/
def utf16 (s : String) : List Nat :=
  (s.data.map (fun c =>
    if c.toNat < 0x10000 then [c.toNat]
    else [0xD800 + (c.toNat - 0x10000) / 0x400,
          0xDC00 + (c.toNat - 0x10000) % 0x400])).flatten

/-- `Array.prototype.join(sep)` over code-unit strings. -/
def joinSep16 (sep : List Nat) : List (List Nat) → List Nat
  | [] => []
  | [x] => x
  | x :: y :: ys => x ++ sep ++ joinSep16 sep (y :: ys)

/-- `Array.prototype.join("")` over code-unit strings. -/
def joinAll16 : List (List Nat) → List Nat
  | [] => []
  | x :: xs => x ++ joinAll16 xs

/-- `String.prototype.split(sep)` over code units, for the two-unit
separator `CHAR_SEPARATOR = [sepHeart, sepVs]`: leftmost-first,
non-overlapping splitting. -/
def jsSplit216 (a b : Nat) : List Nat → List (List Nat)
  | [] => [[]]
  | [c] => [[c]]
  | c :: c2 :: cs =>
    if c = a ∧ c2 = b then [] :: jsSplit216 a b cs
    else
      match jsSplit216 a b (c2 :: cs) with
      | [] => [[c]]
      | g :: gs => (c :: g) :: gs

/--
`maskPlaceholders` of part_001 (lines 42-51) at UTF-16 code-unit level: the
same regex state machine as `maskGo` (the pattern `\x7b([^\x7d]+)\x7d` is
unit-wise: 0x7B, one or more units other than 0x7D, then 0x7D; surrogate
units pass the class), except that a matched placeholder is replaced by the
marker's surrogate pair `phHi phLo`, the name's units joined by the
separator units, and `phHi phLo` again.  `param.split("")` yields one
singleton per CODE UNIT, so an astral name character is separator-joined
between its two surrogate halves, exactly as in JS.
-/
def mask16Go : Option (List Nat) → List Nat → List Nat × List (List Nat)
  | none, [] => ([], [])
  | none, u :: us =>
    if u = 0x7B then mask16Go (some []) us
    else
      let r := mask16Go none us
      (u :: r.1, r.2)
  | some acc, [] => (0x7B :: acc.reverse, [])
  | some acc, u :: us =>
    if u = 0x7D then
      match acc with
      | [] =>
        let r := mask16Go none us
        (0x7B :: 0x7D :: r.1, r.2)
      | _ =>
        let r := mask16Go none us
        (phHi :: phLo ::
          (joinSep16 [sepHeart, sepVs] (acc.reverse.map (fun x => [x])) ++
            phHi :: phLo :: r.1), acc.reverse :: r.2)
    else mask16Go (some (u :: acc)) us

/-- Scanner state for the code-unit rendition of the `unmaskPlaceholders`
regex (see `unmask16Go`). -/
inductive UState where
  | scan
  | sawHi
  | inner (acc : List Nat)
  | innerHi (acc : List Nat)

/--
`unmaskPlaceholders` of part_001 (lines 54-64) at UTF-16 code-unit level.
Without the `u` flag the regex is, unit-wise:
`0xD83C 0xDCDF ([^ 0xD83C 0xDCDF ]+) 0xD83C 0xDCDF` - the delimiters are
the marker's surrogate PAIR while the character class excludes each
surrogate UNIT separately.  States: `scan` = looking for a match start;
`sawHi` = read 0xD83C, a following 0xDCDF opens a candidate; `inner acc` =
inside the class; `innerHi acc` = inside the class, just read 0xD83C, a
following 0xDCDF closes the match (provided the inner part is nonempty).
When a candidate fails, the regex engine rescans from one unit after the
candidate's start; the consumed units are `phHi phLo` plus class units
(none of which is 0xD83C), so that rescan can find no match start before
the unit at which the candidate failed - the machine therefore emits the
consumed units literally and continues at the failing unit.  A successful
match is replaced by `0x7B ++ inner.split(SEP).join("") ++ 0x7D`.
-/
def unmask16Go : UState → List Nat → List Nat
  | .scan, [] => []
  | .scan, u :: us =>
    if u = phHi then unmask16Go .sawHi us
    else u :: unmask16Go .scan us
  | .sawHi, [] => [phHi]
  | .sawHi, u :: us =>
    if u = phLo then unmask16Go (.inner []) us
    else if u = phHi then phHi :: unmask16Go .sawHi us
    else phHi :: u :: unmask16Go .scan us
  | .inner acc, [] => phHi :: phLo :: acc.reverse
  | .inner acc, u :: us =>
    if u = phHi then unmask16Go (.innerHi acc) us
    else if u = phLo then
      phHi :: phLo :: (acc.reverse ++ phLo :: unmask16Go .scan us)
    else unmask16Go (.inner (u :: acc)) us
  | .innerHi acc, [] => phHi :: phLo :: (acc.reverse ++ [phHi])
  | .innerHi acc, u :: us =>
    if u = phLo then
      match acc with
      | [] => phHi :: phLo :: unmask16Go (.inner []) us
      | _ => 0x7B :: (joinAll16 (jsSplit216 sepHeart sepVs acc.reverse) ++
          0x7D :: unmask16Go .scan us)
    else if u = phHi then
      phHi :: phLo :: (acc.reverse ++ phHi :: unmask16Go .sawHi us)
    else phHi :: phLo :: (acc.reverse ++ phHi :: u :: unmask16Go .scan us)

/-- `maskPlaceholders` of part_001, over UTF-16 code units. -/
def maskPlaceholders16 (units : List Nat) : List Nat × List (List Nat) :=
  mask16Go none units

/-- `unmaskPlaceholders` of part_001, over UTF-16 code units. -/
def unmaskPlaceholders16 (units : List Nat) : List Nat :=
  unmask16Go .scan units

example : maskPlaceholders16 (0x7B :: utf16 "ab" ++ [0x7D]) =
    ([phHi, phLo, 0x61, sepHeart, sepVs, 0x62, phHi, phLo],
     [[0x61, 0x62]]) := by decide

example : unmaskPlaceholders16
    [phHi, phLo, 0x61, sepHeart, sepVs, 0x62, phHi, phLo] =
    0x7B :: utf16 "ab" ++ [0x7D] := by decide

lemma jsSplit216_cons_sep (a b c : Nat) (hab : a ≠ b) (t : List Nat) :
    jsSplit216 a b (c :: a :: b :: t) = [c] :: jsSplit216 a b t := by
  have h1 : ¬(c = a ∧ a = b) := fun h => hab h.2
  simp [jsSplit216, h1]

lemma joinAll16_split_join (a b : Nat) (hab : a ≠ b) :
    ∀ name : List Nat, name ≠ [] →
      joinAll16 (jsSplit216 a b (joinSep16 [a, b] (name.map (fun x => [x])))) =
        name
  | [c], _ => by simp [joinSep16, jsSplit216, joinAll16]
  | c :: c2 :: rs, _ => by
    have ih := joinAll16_split_join a b hab (c2 :: rs) (by simp)
    have hJ : joinSep16 [a, b] (((c :: c2 :: rs)).map (fun x => [x])) =
        c :: a :: b :: joinSep16 [a, b] ((c2 :: rs).map (fun x => [x])) := by
      simp [joinSep16]
    rw [hJ, jsSplit216_cons_sep a b c hab, joinAll16, ih]
    rfl

lemma unmask16Go_scan_free : ∀ l : List Nat, phHi ∉ l →
    unmask16Go .scan l = l
  | [], _ => rfl
  | u :: us, h => by
    have hu : u ≠ phHi := fun e => h (e ▸ List.mem_cons_self u us)
    have ih := unmask16Go_scan_free us (fun m => h (List.mem_cons_of_mem u m))
    simp [unmask16Go, hu, ih]

lemma joinSep16_single_ne_nil :
    ∀ name : List Nat, name ≠ [] →
      joinSep16 [sepHeart, sepVs] (name.map (fun x => [x])) ≠ []
  | [c], _ => by simp [joinSep16]
  | c :: c2 :: rs, _ => by simp [joinSep16]

lemma not_mem_joinSep16 (x : Nat) (hxa : x ≠ sepHeart) (hxb : x ≠ sepVs) :
    ∀ name : List Nat, x ∉ name →
      x ∉ joinSep16 [sepHeart, sepVs] (name.map (fun u => [u]))
  | [], _ => by simp [joinSep16]
  | [c], h => by
    simp [joinSep16]
    intro e
    exact h (by simp [e])
  | c :: c2 :: rs, h => by
    have ih := not_mem_joinSep16 x hxa hxb (c2 :: rs)
      (fun m => h (List.mem_cons_of_mem c m))
    have hc : x ≠ c := fun e => h (by simp [e])
    simp [joinSep16] at ih ⊢
    exact ⟨hc, hxa, hxb, ih⟩

lemma unmask16Go_inner_marker :
    ∀ (inner acc rest : List Nat), phHi ∉ inner → phLo ∉ inner →
      acc ≠ [] ∨ inner ≠ [] →
      unmask16Go (.inner acc) (inner ++ phHi :: phLo :: rest) =
        0x7B :: (joinAll16 (jsSplit216 sepHeart sepVs (acc.reverse ++ inner)) ++
          0x7D :: unmask16Go .scan rest)
  | [], acc, rest, _, _, hne => by
    have hacc : acc ≠ [] := hne.resolve_right (fun h => h rfl)
    cases acc with
    | nil => exact absurd rfl hacc
    | cons a0 as => simp [unmask16Go]
  | u :: inner2, acc, rest, hHi, hLo, _ => by
    have hu1 : u ≠ phHi := fun e => hHi (e ▸ List.mem_cons_self u inner2)
    have hu2 : u ≠ phLo := fun e => hLo (e ▸ List.mem_cons_self u inner2)
    have ih := unmask16Go_inner_marker inner2 (u :: acc) rest
      (fun m => hHi (List.mem_cons_of_mem u m))
      (fun m => hLo (List.mem_cons_of_mem u m)) (Or.inl (by simp))
    simp [unmask16Go, hu1, hu2, ih, List.append_assoc]

lemma mask16_unmask16_go : ∀ (t : List Nat) (mode : Option (List Nat)),
    phHi ∉ t → phLo ∉ t →
    (∀ acc, mode = some acc → phHi ∉ acc ∧ phLo ∉ acc) →
    unmask16Go .scan (mask16Go mode t).1 =
      (match mode with
       | none => ([] : List Nat)
       | some acc => 0x7B :: acc.reverse) ++ t := by
  intro t
  induction t with
  | nil =>
    intro mode _ _ hM
    cases mode with
    | none => simp [mask16Go, unmask16Go]
    | some acc =>
      have hacc : phHi ∉ acc := (hM acc rfl).1
      have hfree : phHi ∉ 0x7B :: acc.reverse := by
        intro m
        rcases List.mem_cons.mp m with e | m2
        · exact absurd e (by decide)
        · exact hacc (List.mem_reverse.mp m2)
      simp [mask16Go, unmask16Go_scan_free _ hfree]
  | cons u us ih =>
    intro mode hT1 hT2 hM
    have hus1 : phHi ∉ us := fun m => hT1 (List.mem_cons_of_mem u m)
    have hus2 : phLo ∉ us := fun m => hT2 (List.mem_cons_of_mem u m)
    have huHi : u ≠ phHi := fun e => hT1 (e ▸ List.mem_cons_self u us)
    have huLo : u ≠ phLo := fun e => hT2 (e ▸ List.mem_cons_self u us)
    cases mode with
    | none =>
      by_cases hbr : u = 0x7B
      · subst hbr
        have := ih (some []) hus1 hus2 (fun acc e => by cases e; simp)
        simpa [mask16Go] using this
      · have := ih none hus1 hus2 (fun acc e => by cases e)
        simp [mask16Go, hbr, unmask16Go, huHi, this]
    | some acc =>
      have haccHi : phHi ∉ acc := (hM acc rfl).1
      have haccLo : phLo ∉ acc := (hM acc rfl).2
      by_cases hcl : u = 0x7D
      · subst hcl
        cases acc with
        | nil =>
          have := ih none hus1 hus2 (fun acc e => by cases e)
          have h1 : (0x7B : Nat) ≠ phHi := by decide
          have h2 : (0x7D : Nat) ≠ phHi := by decide
          simp [mask16Go, unmask16Go, h1, h2, this]
        | cons a0 as =>
          have hrevHi : phHi ∉ (a0 :: as).reverse :=
            fun m => haccHi (List.mem_reverse.mp m)
          have hrevLo : phLo ∉ (a0 :: as).reverse :=
            fun m => haccLo (List.mem_reverse.mp m)
          have hnn : (a0 :: as).reverse ≠ [] := by simp
          have hinner1 := not_mem_joinSep16 phHi (by decide) (by decide)
            ((a0 :: as).reverse) hrevHi
          have hinner2 := not_mem_joinSep16 phLo (by decide) (by decide)
            ((a0 :: as).reverse) hrevLo
          have hne := joinSep16_single_ne_nil ((a0 :: as).reverse) hnn
          have hIH : unmask16Go .scan (mask16Go none us).1 = us := by
            simpa using ih none hus1 hus2 (fun acc e => by cases e)
          have hD := unmask16Go_inner_marker
            (joinSep16 [sepHeart, sepVs] ((a0 :: as).reverse.map (fun x => [x])))
            [] ((mask16Go none us).1) hinner1 hinner2 (Or.inr hne)
          simp only [List.reverse_nil, List.nil_append] at hD
          have hE := joinAll16_split_join sepHeart sepVs (by decide)
            ((a0 :: as).reverse) hnn
          rw [hE, hIH] at hD
          have hmask : (mask16Go (some (a0 :: as)) (0x7D :: us)).1 =
              phHi :: phLo :: (joinSep16 [sepHeart, sepVs]
                ((a0 :: as).reverse.map (fun x => [x])) ++
                phHi :: phLo :: (mask16Go none us).1) := by
            simp [mask16Go]
          rw [hmask]
          have hstep : unmask16Go .scan (phHi :: phLo ::
              (joinSep16 [sepHeart, sepVs]
                ((a0 :: as).reverse.map (fun x => [x])) ++
                phHi :: phLo :: (mask16Go none us).1)) =
              unmask16Go (.inner []) (joinSep16 [sepHeart, sepVs]
                ((a0 :: as).reverse.map (fun x => [x])) ++
                phHi :: phLo :: (mask16Go none us).1) := by
            simp [unmask16Go]
          rw [hstep, hD]
          simp
      · have := ih (some (u :: acc)) hus1 hus2
          (fun acc2 e => by
            cases e
            constructor
            · intro m
              rcases List.mem_cons.mp m with e2 | m2
              · exact huHi e2.symm
              · exact haccHi m2
            · intro m
              rcases List.mem_cons.mp m with e2 | m2
              · exact huLo e2.symm
              · exact haccLo m2)
        simp [mask16Go, hcl, this, List.append_assoc]

lemma mask16Go_no_params : ∀ (t : List Nat) (mode : Option (List Nat)),
    (mask16Go mode t).2 = [] →
    (mask16Go mode t).1 =
      (match mode with
       | none => ([] : List Nat)
       | some acc => 0x7B :: acc.reverse) ++ t := by
  intro t
  induction t with
  | nil =>
    intro mode _
    cases mode with
    | none => simp [mask16Go]
    | some acc => simp [mask16Go]
  | cons u us ih =>
    intro mode hP
    cases mode with
    | none =>
      by_cases hbr : u = 0x7B
      · subst hbr
        have h2 : (mask16Go (some []) us).2 = [] := by simpa [mask16Go] using hP
        have := ih (some []) h2
        simpa [mask16Go] using this
      · have h2 : (mask16Go none us).2 = [] := by simpa [mask16Go, hbr] using hP
        have := ih none h2
        simp [mask16Go, hbr, this]
    | some acc =>
      by_cases hcl : u = 0x7D
      · subst hcl
        cases acc with
        | nil =>
          have h2 : (mask16Go none us).2 = [] := by simpa [mask16Go] using hP
          have := ih none h2
          simp [mask16Go, this]
        | cons a0 as =>
          exfalso
          simp [mask16Go] at hP
      · have h2 : (mask16Go (some (u :: acc)) us).2 = [] := by
          simpa [mask16Go, hcl] using hP
        have := ih (some (u :: acc)) h2
        simp [mask16Go, hcl, this, List.append_assoc]

/-- Claim C1 counterexample: the text consisting of a brace-delimited
placeholder whose name is the single character U+1F389 (so it lies squarely
in the claim's class: one placeholder, a non-brace name, and no marker
character anywhere).  Masking extracts the placeholder, but its name's high
surrogate 0xD83C lands inside the marker-delimited span, which the
unmasking class `[^ 0xD83C 0xDCDF ]` rejects: no match exists, unmasking is
the identity on the masked text, and the round trip fails. -/
theorem C1_counterexample :
    utf16 "🎉" = [0xD83C, 0xDF89] ∧
    (maskPlaceholders16 (0x7B :: utf16 "🎉" ++ [0x7D])).2 =
      [utf16 "🎉"] ∧
    unmaskPlaceholders16 (maskPlaceholders16
        (0x7B :: utf16 "🎉" ++ [0x7D])).1 =
      (maskPlaceholders16 (0x7B :: utf16 "🎉" ++ [0x7D])).1 ∧
    unmaskPlaceholders16 (maskPlaceholders16
        (0x7B :: utf16 "🎉" ++ [0x7D])).1 ≠
      0x7B :: utf16 "🎉" ++ [0x7D] := by decide

/-- Claim C1 (amended): over the UTF-16 code-unit embedding, for every text
containing neither of the marker's surrogate units 0xD83C and 0xDCDF,
unmasking the masked text reproduces the original text; and whenever
`maskPlaceholders` extracts no placeholder it returns the text unchanged. -/
theorem C1_placeholder_roundtrip :
    (∀ u : List Nat, phHi ∉ u → phLo ∉ u →
      unmaskPlaceholders16 (maskPlaceholders16 u).1 = u) ∧
    (∀ u : List Nat, (maskPlaceholders16 u).2 = [] →
      (maskPlaceholders16 u).1 = u) := by
  constructor
  · intro u h1 h2
    have hmain := mask16_unmask16_go u none h1 h2 (fun acc e => by cases e)
    simpa using hmain
  · intro u h
    have hmain := mask16Go_no_params u none h
    simpa using hmain

/-- Witness for C1: concrete instances of both conjuncts (an ASCII text
with one placeholder, and a placeholder-free text). -/
theorem C1_placeholder_roundtrip_witness :
    unmaskPlaceholders16 (maskPlaceholders16 (utf16 "Hi {name}!")).1 =
      utf16 "Hi {name}!" ∧
    (maskPlaceholders16 (utf16 "plain")).1 = utf16 "plain" :=
  ⟨C1_placeholder_roundtrip.1 (utf16 "Hi {name}!") (by decide) (by decide),
   C1_placeholder_roundtrip.2 (utf16 "plain") (by decide)⟩


/-- Claim C2 counterexample: the rate-limit class (429) does not wait
longest; the generic server-error class (500) waits strictly longer. -/
theorem C2_counterexample :
    getRetryDelay 429 = 5000 ∧ getRetryDelay 500 = 10000 ∧
    ¬ (getRetryDelay 500 ≤ getRetryDelay 429) := by decide

/-- Claim C2 (amended): the malformed-request class (400) waits shortest,
the rate-limit class (429) a medium duration, the generic server-error class
(500) longest, and any status outside the classification table gets the same
wait as the rate-limit class. -/
theorem C2_retry_delay_order :
    getRetryDelay 400 < getRetryDelay 429 ∧
    getRetryDelay 429 < getRetryDelay 500 ∧
    ∀ s : Nat, s ≠ 429 → s ≠ 500 → s ≠ 400 → getRetryDelay s = getRetryDelay 429 := by
  refine ⟨by decide, by decide, ?_⟩
  intro s h1 h2 h3
  simp [getRetryDelay, h1, h2, h3]

/-- Witness for C2: an unclassified status (418) gets the rate-limit wait. -/
theorem C2_retry_delay_order_witness :
    getRetryDelay 418 = getRetryDelay 429 :=
  C2_retry_delay_order.2.2 418 (by decide) (by decide) (by decide)

namespace TranslateJs

/-! Independent embedding of the placeholder codec of src/scripts/translate.js
(lines 30-64).  The constants, the masking regex replace and the unmasking
regex replace are transcribed from that file separately from the part_001
embedding above, so that the two codecs can be compared (claim C10). -/

/-- `PLACEHOLDER_PREFIX`/`PLACEHOLDER_SUFFIX` of translate.js (lines 34-35). -/
def phChar : Char := Char.ofNat 0x1F0DF

/-- First scalar of translate.js's `CHAR_SEPARATOR` (line 36). -/
def sepA : Char := Char.ofNat 0x2764

/-- Second scalar of translate.js's `CHAR_SEPARATOR` (line 36). -/
def sepB : Char := Char.ofNat 0xFE0F

/-- `String.prototype.split` for the two-scalar separator, as in translate.js's
`unmaskPlaceholders` (line 62). -/
def jsSplit2 (a b : Char) : List Char → List (List Char)
  | [] => [[]]
  | [c] => [[c]]
  | c :: c2 :: cs =>
    if c = a ∧ c2 = b then [] :: jsSplit2 a b cs
    else
      match jsSplit2 a b (c2 :: cs) with
      | [] => [[c]]
      | g :: gs => (c :: g) :: gs

/-- State machine for translate.js's `maskPlaceholders` regex replace
(lines 42-51), built the same way as the part_001 embedding. -/
def maskGo : Option (List Char) → List Char → List Char × List (List Char)
  | none, [] => ([], [])
  | none, c :: cs =>
    if c = '{' then maskGo (some []) cs
    else
      let r := maskGo none cs
      (c :: r.1, r.2)
  | some acc, [] => ('{' :: acc.reverse, [])
  | some acc, c :: cs =>
    if c = '}' then
      match acc with
      | [] =>
        let r := maskGo none cs
        ('{' :: '}' :: r.1, r.2)
      | _ =>
        let r := maskGo none cs
        (phChar :: (joinSep [sepA, sepB] (acc.reverse.map (fun ch => [ch])) ++
          phChar :: r.1), acc.reverse :: r.2)
    else maskGo (some (c :: acc)) cs

/-- State machine for translate.js's `unmaskPlaceholders` regex replace
(lines 54-64). -/
def unmaskGo : Option (List Char) → List Char → List Char
  | none, [] => []
  | none, c :: cs =>
    if c = phChar then unmaskGo (some []) cs
    else c :: unmaskGo none cs
  | some acc, [] => phChar :: acc.reverse
  | some acc, c :: cs =>
    if c = phChar then
      match acc with
      | [] => phChar :: unmaskGo (some []) cs
      | _ => '{' :: (joinAll (jsSplit2 sepA sepB acc.reverse) ++
          '}' :: unmaskGo none cs)
    else unmaskGo (some (c :: acc)) cs

/-- `maskPlaceholders` of translate.js (lines 42-51). -/
def maskPlaceholders (text : String) : String × List String :=
  let r := maskGo none text.data
  (String.mk r.1, r.2.map String.mk)

/-- `unmaskPlaceholders` of translate.js (lines 54-64). -/
def unmaskPlaceholders (text : String) : String :=
  String.mk (unmaskGo none text.data)

end TranslateJs

lemma tjJsSplit2_eq (a b : Char) :
    ∀ l : List Char, TranslateJs.jsSplit2 a b l = jsSplit2 a b l
  | [] => rfl
  | [_] => rfl
  | c :: c2 :: cs => by
    by_cases h : c = a ∧ c2 = b
    · simp only [TranslateJs.jsSplit2, jsSplit2, if_pos h, tjJsSplit2_eq a b cs]
    · simp only [TranslateJs.jsSplit2, jsSplit2, if_neg h,
        tjJsSplit2_eq a b (c2 :: cs)]

lemma tjMaskGo_eq (l : List Char) :
    ∀ mode : Option (List Char), TranslateJs.maskGo mode l = maskGo mode l := by
  induction l with
  | nil => intro mode; cases mode <;> rfl
  | cons c cs ih =>
    intro mode
    have e1 : TranslateJs.phChar = phChar := rfl
    have e2 : TranslateJs.sepA = sepA := rfl
    have e3 : TranslateJs.sepB = sepB := rfl
    cases mode with
    | none =>
      by_cases h : c = '{'
      · simp only [TranslateJs.maskGo, maskGo, if_pos h, ih]
      · simp only [TranslateJs.maskGo, maskGo, if_neg h, ih]
    | some acc =>
      by_cases h : c = '}'
      · cases acc with
        | nil => simp only [TranslateJs.maskGo, maskGo, if_pos h, ih]
        | cons a0 as =>
          simp only [TranslateJs.maskGo, maskGo, if_pos h, ih, e1, e2, e3]
      · simp only [TranslateJs.maskGo, maskGo, if_neg h, ih]

lemma tjUnmaskGo_eq (l : List Char) :
    ∀ mode : Option (List Char), TranslateJs.unmaskGo mode l = unmaskGo mode l := by
  induction l with
  | nil => intro mode; cases mode <;> rfl
  | cons c cs ih =>
    intro mode
    have e1 : TranslateJs.phChar = phChar := rfl
    have e2 : TranslateJs.sepA = sepA := rfl
    have e3 : TranslateJs.sepB = sepB := rfl
    cases mode with
    | none =>
      by_cases h : c = phChar
      · rw [show TranslateJs.unmaskGo none (c :: cs) =
            TranslateJs.unmaskGo (some []) cs by
              simp only [TranslateJs.unmaskGo, e1, if_pos h],
          show unmaskGo none (c :: cs) = unmaskGo (some []) cs by
              simp only [unmaskGo, if_pos h]]
        exact ih (some [])
      · rw [show TranslateJs.unmaskGo none (c :: cs) =
            c :: TranslateJs.unmaskGo none cs by
              simp only [TranslateJs.unmaskGo, e1, if_neg h],
          show unmaskGo none (c :: cs) = c :: unmaskGo none cs by
              simp only [unmaskGo, if_neg h]]
        rw [ih none]
    | some acc =>
      by_cases h : c = phChar
      · cases acc with
        | nil =>
          simp only [TranslateJs.unmaskGo, unmaskGo, e1, if_pos h, ih]
        | cons a0 as =>
          simp only [TranslateJs.unmaskGo, unmaskGo, e1, e2, e3, if_pos h, ih,
            tjJsSplit2_eq]
      · simp only [TranslateJs.unmaskGo, unmaskGo, e1, if_neg h, ih]

/-- Claim C10: the placeholder codecs of the two pipeline variants agree on
every input text: masking returns the same masked text and the same
placeholder list, and unmasking returns the same output. -/
theorem C10_codec_equivalence :
    ∀ text : String,
      TranslateJs.maskPlaceholders text = maskPlaceholders text ∧
      TranslateJs.unmaskPlaceholders text = unmaskPlaceholders text := by
  intro text
  constructor
  · show (let r := TranslateJs.maskGo none text.data
      (String.mk r.1, r.2.map String.mk)) = _
    rw [show TranslateJs.maskGo none text.data = maskGo none text.data from
      tjMaskGo_eq text.data none]
    rfl
  · show String.mk (TranslateJs.unmaskGo none text.data) = _
    rw [show TranslateJs.unmaskGo none text.data = unmaskGo none text.data from
      tjUnmaskGo_eq text.data none]
    rfl

/-- JS values that appear in row cells and progress entries. -/
inductive JSVal where
  | undef
  | null
  | str (s : String)
deriving DecidableEq

/-- JS truthiness of the above values (`undefined`, `null` and the empty
string are falsy; every other string is truthy). -/
def JSVal.truthy : JSVal → Bool
  | .str s => s != ""
  | _ => false

/-- JS property-key coercion (`obj[v]` coerces `v` to a string). -/
def jsKey : JSVal → String
  | .undef => "undefined"
  | .null => "null"
  | .str s => s

/-- A JS object used as a record (column name → cell) or as a progress store
(source text → translation), in insertion order. -/
abbrev Store := List (String × JSVal)

/-- JS property read: first binding wins, missing key reads as `undefined`. -/
def rget : Store → String → JSVal
  | [], _ => .undef
  | (k2, v2) :: ps, k => if k2 = k then v2 else rget ps k

/-- JS property write: update an existing binding in place, else append. -/
def rset : Store → String → JSVal → Store
  | [], k, v => [(k, v)]
  | (k2, v2) :: ps, k, v => if k2 = k then (k, v) :: ps else (k2, v2) :: rset ps k v

/-- Whether the object has an own property named `k` (whatever its value). -/
def hasKey (st : Store) (k : String) : Bool :=
  st.any (fun p => p.1 == k)

/-- The payloads posted to the remote service so far, in order; the length is
the index of the next call. -/
abbrev Trace := List String

instance {ε α : Type} [DecidableEq ε] [DecidableEq α] :
    DecidableEq (Except ε α) := fun x y =>
  match x, y with
  | .ok a, .ok b => decidable_of_iff (a = b) (by simp)
  | .ok _, .error _ => isFalse (fun h => Except.noConfusion h)
  | .error _, .ok _ => isFalse (fun h => Except.noConfusion h)
  | .error a, .error b => decidable_of_iff (a = b) (by simp)

/-- The remote service as an oracle: call index and posted text to response
(`.ok data` = HTTP success body, `.error (some st)` = HTTP failure with
status `st`, `.error none` = transport error with no response object). -/
structure Env where
  net : Nat → String → Except (Option Nat) String

/--
The retry recursion of `translateText` (part_001 lines 104-153): mask the
text, post it, unmask on success; on failure compare `retryCount` with
`MAX_RETRIES` and either rethrow the error or recurse with `retryCount + 1`.
The bounded recursion is rendered through the remaining retry budget
`remaining = MAX_RETRIES - retryCount`, so `retryCount >= MAX_RETRIES` is
`remaining = 0`.  (The class-specific wait computed via `getRetryDelay` and
the jitter only affect timing and are not part of the value model.)
-/
def translateTextRetry (env : Env) (s : String) :
    Nat → Trace → Except (Option Nat) String × Trace
  | remaining, tr =>
    match env.net tr.length (maskPlaceholders s).1 with
    | .ok d => (.ok (unmaskPlaceholders d), tr ++ [(maskPlaceholders s).1])
    | .error e =>
      match remaining with
      | 0 => (.error e, tr ++ [(maskPlaceholders s).1])
      | r + 1 => translateTextRetry env s r (tr ++ [(maskPlaceholders s).1])

/-- `translateText` (part_001 lines 92-154): the `if (!text)` guard returns a
falsy argument unchanged without any network call; otherwise the retry
recursion runs starting from `retryCount = 0`. -/
def translateText (env : Env) (v : JSVal) (tr : Trace) :
    Except (Option Nat) JSVal × Trace :=
  if v.truthy then
    match v with
    | .str s =>
      match translateTextRetry env s MAX_RETRIES tr with
      | (.ok d, tr2) => (.ok (.str d), tr2)
      | (.error e, tr2) => (.error e, tr2)
    | _ => (.ok v, tr)
  else (.ok v, tr)

/-- `String.prototype.trim`, on the ASCII whitespace fragment. -/
def jsTrim (s : String) : String :=
  String.mk (((s.data.dropWhile Char.isWhitespace).reverse.dropWhile
    Char.isWhitespace).reverse)

/--
One iteration of the post-processing loop in `translateBatch` (part_001
lines 260-289), acting on `translated[i]`: trim, then if
`texts[i][0] === texts[i][0].toUpperCase()` and
`translated[i][0] !== translated[i][0].toUpperCase()` replace the first
character by its upper-case form.  `srcOpt` is `texts[i]` (`none` when `i`
is out of range, i.e. the JS value `undefined`); a `none` result is the loop
body throwing a `TypeError` (indexing or `toUpperCase` on `undefined`),
which the surrounding `catch` turns into `process.exit(1)`.
`toUpperCase` is modelled by the ASCII `Char.toUpper`.
-/
def batchPostItem (srcOpt : Option String) (t : String) : Option String :=
  let tt := jsTrim t
  match srcOpt with
  | none => none
  | some s =>
    match s.data with
    | [] => none
    | c :: _ =>
      if Char.toUpper c = c then
        match tt.data with
        | [] => none
        | d :: ds =>
          if Char.toUpper d ≠ d then some (String.mk (Char.toUpper d :: ds))
          else some tt
      else some tt

/-- The whole post-processing loop of `translateBatch`: one `batchPostItem`
per line of the split response, stopping at the first thrown error. -/
def batchPostLoop (texts : List String) : Nat → List String → Option (List String)
  | _, [] => some []
  | i, t :: ts =>
    match batchPostItem texts[i]? t with
    | none => none
    | some t2 =>
      match batchPostLoop texts (i + 1) ts with
      | none => none
      | some rest => some (t2 :: rest)

/-- Helper for `splitNL`: push a character onto the first chunk. -/
def consHead (c : Char) : List (List Char) → List (List Char)
  | [] => [[c]]
  | g :: gs => (c :: g) :: gs

/-- JS `String.prototype.split("\n")`. -/
def splitNL : List Char → List (List Char)
  | [] => [[]]
  | c :: cs => if c = '\n' then [] :: splitNL cs else consHead c (splitNL cs)

/-- JS `Array.prototype.join("\n")`. -/
def joinNL (texts : List String) : String :=
  String.mk (joinSep ['\n'] (texts.map String.data))

/-- How a batch request ends abnormally: a propagated exception from
`translateText`, or `process.exit(1)` from the post-processing `catch`. -/
inductive BatchErr where
  | net (e : Option Nat)
  | fatal
deriving DecidableEq

/-- `translateBatch` (part_001 lines 246-291): join the texts with line
breaks, translate the joined text through `translateText`, split the result
on line breaks and post-process each line.  A non-string translation result
(only reachable for a falsy batch text, which the pipeline never sends)
would make `translatedBatch.split` throw, hence `.fatal`. -/
def translateBatch (env : Env) (texts : List String) (tr : Trace) :
    Except BatchErr (List String) × Trace :=
  match translateText env (.str (joinNL texts)) tr with
  | (.error e, tr2) => (.error (.net e), tr2)
  | (.ok v, tr2) =>
    match v with
    | .str s =>
      match batchPostLoop texts 0 ((splitNL s.data).map String.mk) with
      | none => (.error .fatal, tr2)
      | some ts => (.ok ts, tr2)
    | _ => (.error .fatal, tr2)

/-- Outcome of a pipeline stage that may call `process.exit(1)`. -/
inductive POut (α : Type) where
  | exit1
  | ok (a : α)
deriving DecidableEq

/-- `isTextSuitableForBatch` (part_001 lines 241-243). -/
def isTextSuitableForBatch (text : String) (maxTextLength : Nat) : Bool :=
  !(text.data.contains '\n') && decide (text.length ≤ maxTextLength)

/-- `MAX_BATCH_SIZE` (part_001 line 237). -/
def MAX_BATCH_SIZE : Nat := 30

/-- `MAX_TEXT_LENGTH` (part_001 line 238). -/
def MAX_TEXT_LENGTH : Nat := 100

/-- The selection loop of `processBatchTranslations` (part_001 lines
304-321): skip rows with a truthy destination cell, then require a truthy
source text with no truthy progress entry, batch-suitable, and not already
seen; `acc` is both the output array and the seen set (they always hold the
same texts). -/
def selectGo (lang base : String) (progress : Store) (maxLen : Nat) :
    List Store → List String → List String
  | [], acc => acc
  | r :: rs, acc =>
    if (rget r lang).truthy then selectGo lang base progress maxLen rs acc
    else
      let sv := rget r base
      if sv.truthy && !(rget progress (jsKey sv)).truthy &&
          isTextSuitableForBatch (jsKey sv) maxLen && !(decide (jsKey sv ∈ acc))
      then selectGo lang base progress maxLen rs (acc ++ [jsKey sv])
      else selectGo lang base progress maxLen rs acc

/-- The texts collected for batching by `processBatchTranslations`. -/
def selectBatchTexts (records : List Store) (lang base : String)
    (progress : Store) (maxLen : Nat) : List String :=
  selectGo lang base progress maxLen records []

/-- The per-row eligibility test of the selection loop, without the seen-set
check: the text a row offers for batching, if any. -/
def eligibleText (lang base : String) (progress : Store) (maxLen : Nat)
    (r : Store) : Option String :=
  if (rget r lang).truthy then none
  else
    let sv := rget r base
    if sv.truthy && !(rget progress (jsKey sv)).truthy &&
        isTextSuitableForBatch (jsKey sv) maxLen
    then some (jsKey sv) else none

/-- All eligible source texts in row order (with repetitions). -/
def eligTexts (records : List Store) (lang base : String) (progress : Store)
    (maxLen : Nat) : List String :=
  records.filterMap (eligibleText lang base progress maxLen)

/-- The write-back loop of `processBatchTranslations` (part_001 lines
350-354): `progress[batch[j]] = translations[j]` for every `j` below the
batch length; a missing `translations[j]` is the JS value `undefined`. -/
def writeBatch : Store → List String → List String → Store
  | p, [], _ => p
  | p, s :: bs, [] => writeBatch (rset p s .undef) bs []
  | p, s :: bs, t :: ts => writeBatch (rset p s (.str t)) bs ts

/-- Helper for `chunks`: `cur` is the (reversed) chunk being built and the
counter is the remaining capacity of that chunk. -/
def chunksAux (bs : Nat) (cur : List String) : Nat → List String → List (List String)
  | _, [] => [cur.reverse]
  | 0, x :: xs => cur.reverse :: chunksAux bs [x] (bs - 1) xs
  | k + 1, x :: xs => chunksAux bs (x :: cur) k xs

/-- The chunking loop `for (i = 0; i < n; i += batchSize) slice(i, i + batchSize)`
of `processBatchTranslations` (part_001 lines 333-334), for `bs ≥ 1` (the
pipeline default is `MAX_BATCH_SIZE = 30`). -/
def chunks (bs : Nat) : List String → List (List String)
  | [] => []
  | x :: xs => chunksAux bs [x] (bs - 1) xs

/-- The per-chunk loop of `processBatchTranslations` (part_001 lines
333-368): translate each chunk, write its results to the progress store; any
error (propagated exception or batch-internal exit) is `process.exit(1)`. -/
def batchLoop (env : Env) : List (List String) → Store → Trace → POut (Store × Trace)
  | [], p, tr => .ok (p, tr)
  | chunk :: rest, p, tr =>
    match translateBatch env chunk tr with
    | (.ok ts, tr2) => batchLoop env rest (writeBatch p chunk ts) tr2
    | (.error _, _) => .exit1

/-- The record resynchronisation of `saveCurrentProgress` (part_001 lines
200-209): every row whose source text has a truthy progress entry gets its
current-language cell overwritten with that entry. -/
def syncRecords (records : List Store) (progress : Store) (base lang : String) :
    List Store :=
  records.map (fun r =>
    if (rget progress (jsKey (rget r base))).truthy then
      rset r lang (rget progress (jsKey (rget r base)))
    else r)

/-- `processBatchTranslations` (part_001 lines 294-372): select, chunk,
translate and store; on success it ends with `saveCurrentProgress`, whose
record resynchronisation is the only record mutation.  An empty selection
returns early without that resynchronisation. -/
def processBatchTranslations (env : Env) (records : List Store)
    (lang base : String) (batchSize maxLen : Nat) (progress : Store)
    (tr : Trace) : POut (List Store × Store × Trace) :=
  let shortTexts := selectBatchTexts records lang base progress maxLen
  if shortTexts = [] then .ok (records, progress, tr)
  else
    match batchLoop env (chunks batchSize shortTexts) progress tr with
    | .exit1 => .exit1
    | .ok (p2, tr2) => .ok (syncRecords records p2 base lang, p2, tr2)

/-- The rebuild step of `translateProject` (part_001 lines 503-513): every
row whose source text has no truthy progress entry gets its destination cell
set to `null`. -/
def rebuildPass (records : List Store) (lang base : String) (progress : Store) :
    List Store :=
  records.map (fun r =>
    if !(rget progress (jsKey (rget r base))).truthy then rset r lang .null
    else r)

/-- The item pass of `translateProject` (part_001 lines 527-564): rows with a
truthy destination cell are skipped; rows whose source text has a truthy
progress entry reuse it; otherwise `translateText` is invoked and, on
success, both the progress store and the row are updated (a failure is
logged and the row left as is). -/
def itemPass (env : Env) (lang base : String) :
    List Store → Store → Trace → List Store × Store × Trace
  | [], p, tr => ([], p, tr)
  | r :: rs, p, tr =>
    if (rget r lang).truthy then
      let out := itemPass env lang base rs p tr
      (r :: out.1, out.2)
    else
      let sv := rget r base
      if (rget p (jsKey sv)).truthy then
        let out := itemPass env lang base rs p tr
        (rset r lang (rget p (jsKey sv)) :: out.1, out.2)
      else
        match translateText env sv tr with
        | (.ok v, tr2) =>
          let out := itemPass env lang base rs (rset p (jsKey sv) v) tr2
          (rset r lang v :: out.1, out.2)
        | (.error _, tr2) =>
          let out := itemPass env lang base rs p tr2
          (r :: out.1, out.2)

/-- The processing of one target language inside `translateProject`
(part_001 lines 489-572), for a run with a single target language: optional
rebuild, optional batch pass, item pass, then `saveCurrentProgress` at line
567 and the final `saveCurrentProgress` at line 572 (each resynchronises the
records from the progress store).  File writes are modelled as succeeding;
their failure handling is modelled separately with `saveCurrentProgress`. -/
def runSingleLanguage (env : Env) (lang base : String) (rebuild skipBatch : Bool)
    (batchSize maxLen : Nat) (records : List Store) (progress : Store)
    (tr : Trace) : POut (List Store × Store × Trace) :=
  let records1 := if rebuild then rebuildPass records lang base progress else records
  match (if skipBatch then POut.ok (records1, progress, tr)
         else processBatchTranslations env records1 lang base batchSize maxLen
           progress tr) with
  | .exit1 => .exit1
  | .ok (records2, p2, tr2) =>
    let out := itemPass env lang base records2 p2 tr2
    let records4 := syncRecords out.1 out.2.1 base lang
    let records5 := syncRecords records4 out.2.1 base lang
    .ok (records5, out.2.1, out.2.2)

/-- Outcome of reading the progress file: absent, readable content, or a
read error. -/
inductive ProgressFileRead where
  | absent
  | content (p : Store)
  | failure
deriving DecidableEq

/-- `loadProgressFile` (part_001 lines 156-170): an absent file and a failed
read both yield the empty mapping (the failure is only logged). -/
def loadProgressFile : ProgressFileRead → Store
  | .absent => []
  | .content p => p
  | .failure => []

/-- `saveProgressFile` (part_001 lines 172-178): the underlying write result
is `w`; a write error is caught, logged and swallowed, so the caller always
sees a normal return. -/
def saveProgressFile (w : Except Unit Unit) : Except Unit Unit :=
  match w with
  | .ok _ => .ok ()
  | .error _ => .ok ()

/-- `saveCurrentProgress` (part_001 lines 180-234): with state present, save
the progress file (via `saveProgressFile`) and then write the CSV; any error
thrown inside is logged and rethrown to the caller. -/
def saveCurrentProgress (hasState : Bool) (wProgress wCsv : Except Unit Unit) :
    Except Unit Unit :=
  if hasState then
    match saveProgressFile wProgress with
    | .error e => .error e
    | .ok _ =>
      match wCsv with
      | .error e => .error e
      | .ok _ => .ok ()
  else .ok ()

lemma rget_rset_self (st : Store) (k : String) (v : JSVal) :
    rget (rset st k v) k = v := by
  induction st with
  | nil => simp [rget, rset]
  | cons p ps ih =>
    obtain ⟨a, b⟩ := p
    by_cases h : a = k
    · subst h; simp [rget, rset]
    · simp [rget, rset, h, ih]

lemma rget_rset_ne (st : Store) (k k2 : String) (v : JSVal) (h : k2 ≠ k) :
    rget (rset st k v) k2 = rget st k2 := by
  have h2 : k ≠ k2 := Ne.symm h
  induction st with
  | nil => simp [rget, rset, h2]
  | cons p ps ih =>
    obtain ⟨a, b⟩ := p
    by_cases hak : a = k
    · subst hak; simp [rget, rset, h2]
    · by_cases hak2 : a = k2
      · subst hak2; simp [rget, rset, hak]
      · simp [rget, rset, hak, hak2, ih]

lemma translateTextRetry_all_fail (env : Env) (s : String)
    (hfail : ∀ n p, ∃ e, env.net n p = Except.error e) :
    ∀ (remaining : Nat) (tr : Trace),
      (translateTextRetry env s remaining tr).2.length = tr.length + remaining + 1 ∧
      ∃ e, env.net (tr.length + remaining) (maskPlaceholders s).1 = Except.error e ∧
        (translateTextRetry env s remaining tr).1 = Except.error e := by
  intro remaining
  induction remaining with
  | zero =>
    intro tr
    obtain ⟨e, he⟩ := hfail tr.length (maskPlaceholders s).1
    refine ⟨?_, e, by simpa using he, ?_⟩
    · simp [translateTextRetry, he]
    · simp [translateTextRetry, he]
  | succ r ih =>
    intro tr
    obtain ⟨e, he⟩ := hfail tr.length (maskPlaceholders s).1
    have hstep : translateTextRetry env s (r + 1) tr =
        translateTextRetry env s r (tr ++ [(maskPlaceholders s).1]) := by
      rw [translateTextRetry]
      rw [he]
    obtain ⟨hlen, e2, he2, hval⟩ := ih (tr ++ [(maskPlaceholders s).1])
    refine ⟨?_, e2, ?_, ?_⟩
    · rw [hstep, hlen]; simp; omega
    · have : tr.length + 1 + r = tr.length + (r + 1) := by omega
      rw [← this]; simpa using he2
    · rw [hstep]; exact hval

/-- Claim C4: when every remote call fails, `translateText` on a nonempty
text makes exactly `MAX_RETRIES + 1 = 11` call attempts (observed in the
trace), then surfaces the error of the last call to the caller. -/
theorem C4_retry_ceiling (env : Env) (s : String) (tr : Trace)
    (hs : s ≠ "") (hfail : ∀ n p, ∃ e, env.net n p = Except.error e) :
    (translateText env (.str s) tr).2.length = tr.length + (MAX_RETRIES + 1) ∧
    MAX_RETRIES + 1 = 11 ∧
    ∃ e, env.net (tr.length + MAX_RETRIES) (maskPlaceholders s).1 = Except.error e ∧
      (translateText env (.str s) tr).1 = Except.error e := by
  have hT : (JSVal.str s).truthy = true := by
    simp [JSVal.truthy, bne_iff_ne, hs]
  obtain ⟨hlen, e, he, hval⟩ := translateTextRetry_all_fail env s hfail MAX_RETRIES tr
  have hTT : translateText env (.str s) tr =
      ((translateTextRetry env s MAX_RETRIES tr).1.map JSVal.str,
       (translateTextRetry env s MAX_RETRIES tr).2) := by
    rw [translateText, if_pos hT]
    rcases translateTextRetry env s MAX_RETRIES tr with ⟨res, tr2⟩
    cases res <;> rfl
  refine ⟨?_, rfl, e, he, ?_⟩
  · rw [hTT]
    simpa [Nat.add_assoc] using hlen
  · rw [hTT]
    show Except.map JSVal.str (translateTextRetry env s MAX_RETRIES tr).1 =
      Except.error e
    rw [hval]
    rfl

/-- Witness for C4: a client that always fails with status 429. -/
theorem C4_retry_ceiling_witness :
    (translateText ⟨fun _ _ => .error (some 429)⟩ (.str "hi") []).2.length =
      ([] : Trace).length + (MAX_RETRIES + 1) ∧
    MAX_RETRIES + 1 = 11 ∧
    ∃ e, (⟨fun _ _ => .error (some 429)⟩ : Env).net
        (([] : Trace).length + MAX_RETRIES) (maskPlaceholders "hi").1 =
        Except.error e ∧
      (translateText ⟨fun _ _ => .error (some 429)⟩ (.str "hi") []).1 =
        Except.error e :=
  C4_retry_ceiling ⟨fun _ _ => .error (some 429)⟩ "hi" []
    (by decide) (fun _ _ => ⟨some 429, rfl⟩)

/-- Claim C3, evaluated at the failing input: a batch of two texts whose
response splits into a single line is NOT fatal — `translateBatch` returns
the one-line result, and `processBatchTranslations` stores a translation for
the first text and an `undefined`-valued entry for the second, then
resynchronises the first row.  By contrast a response with more lines than
inputs does terminate the process.  So the mismatch is fatal only in the
"more lines" direction, refuting the claim's "fewer lines" half. -/
theorem C3_mismatch_behavior :
    translateBatch ⟨fun _ _ => .ok "Bonjour"⟩ ["Hello", "World"] [] =
      (.ok ["Bonjour"], ["Hello\nWorld"]) ∧
    processBatchTranslations ⟨fun _ _ => .ok "Bonjour"⟩
      [[("key", .str "k1"), ("en", .str "Hello"), ("fr", .str "")],
       [("key", .str "k2"), ("en", .str "World"), ("fr", .str "")]]
      "fr" "en" MAX_BATCH_SIZE MAX_TEXT_LENGTH [] [] =
    POut.ok
      ([[("key", .str "k1"), ("en", .str "Hello"), ("fr", .str "Bonjour")],
        [("key", .str "k2"), ("en", .str "World"), ("fr", .str "")]],
       [("Hello", .str "Bonjour"), ("World", .undef)],
       ["Hello\nWorld"]) ∧
    processBatchTranslations ⟨fun _ _ => .ok "A\nB"⟩
      [[("key", .str "k"), ("en", .str "Hi"), ("fr", .str "")]]
      "fr" "en" MAX_BATCH_SIZE MAX_TEXT_LENGTH [] [] = POut.exit1 := by
  refine ⟨by decide, by decide, by decide⟩

/-- Claim C9 counterexample: the code's test is
`texts[i][0] === texts[i][0].toUpperCase()`, which also holds for caseless
first characters such as digits.  A source starting with the digit '5' (not
an uppercase character) still forces the translation's first character to
uppercase, so the translation is not "left unchanged" as the claim's
otherwise-branch requires. -/
theorem C9_counterexample :
    Char.isUpper '5' = false ∧
    batchPostItem (some "5a") "ok" = some "Ok" ∧
    batchPostItem (some "5a") "ok" ≠ some (jsTrim "ok") := by decide

/-- Claim C9 (amended): batch post-processing per item first trims
surrounding whitespace, then: if the source text's first character equals
its own uppercase form (an uppercase letter or a caseless character such as
a digit) and the trimmed translation's first character does not, the
translation's first character is forced to uppercase; otherwise the trimmed
translation is returned unchanged (in particular never lowercased).  The
three behavioural branches are each proved for every input, and the spec's
two examples hold.  (The remaining inputs — empty source or, for an
uppercase-stable source, empty trimmed translation — throw in JS and are
the fatal path of claim C3, not covered by this claim.) -/
theorem C9_case_preservation :
    batchPostItem (some "Hello") " bonjour " = some "Bonjour" ∧
    batchPostItem (some "hello") "Bonjour" = some "Bonjour" ∧
    (∀ (s t : String) (c : Char) (cs : List Char) (d : Char) (ds : List Char),
      s.data = c :: cs → Char.toUpper c = c →
      (jsTrim t).data = d :: ds → Char.toUpper d ≠ d →
      batchPostItem (some s) t = some (String.mk (Char.toUpper d :: ds))) ∧
    (∀ (s t : String) (d : Char) (ds : List Char),
      s.data ≠ [] → (jsTrim t).data = d :: ds → Char.toUpper d = d →
      batchPostItem (some s) t = some (jsTrim t)) ∧
    (∀ (s t : String) (c : Char) (cs : List Char),
      s.data = c :: cs → Char.toUpper c ≠ c →
      batchPostItem (some s) t = some (jsTrim t)) := by
  refine ⟨by decide, by decide, ?_, ?_, ?_⟩
  · intro s t c cs d ds hs hc ht hd
    simp only [batchPostItem, hs, ht]
    rw [if_pos hc, if_pos hd]
  · intro s t d ds hs ht hd
    simp only [batchPostItem]
    cases hsd : s.data with
    | nil => exact absurd hsd hs
    | cons c0 cs0 =>
      by_cases h0 : Char.toUpper c0 = c0
      · simp only [if_pos h0, ht, hd]
        simp
      · simp only [if_neg h0]
  · intro s t c cs hs hc
    simp only [batchPostItem, hs]
    rw [if_neg hc]

/-- Witness for C9: each of the three universal branches at a concrete
input — force-uppercase, translation already uppercase-stable, and source
not uppercase-stable. -/
theorem C9_case_preservation_witness :
    batchPostItem (some "Db") "ok" = some (String.mk (Char.toUpper 'o' :: ['k'])) ∧
    batchPostItem (some "X") "Ok" = some (jsTrim "Ok") ∧
    batchPostItem (some "hello") "bonjour" = some (jsTrim "bonjour") :=
  ⟨C9_case_preservation.2.2.1 "Db" "ok" 'D' ['b'] 'o' ['k']
      (by decide) (by decide) (by decide) (by decide),
   C9_case_preservation.2.2.2.1 "X" "Ok" 'O' ['k']
      (by decide) (by decide) (by decide),
   C9_case_preservation.2.2.2.2 "hello" "bonjour" 'h' ['e', 'l', 'l', 'o']
      (by decide) (by decide)⟩

lemma JSVal.truthy_eq_true (v : JSVal) :
    v.truthy = true ↔ ∃ s, v = .str s ∧ s ≠ "" := by
  cases v with
  | undef => simp [JSVal.truthy]
  | null => simp [JSVal.truthy]
  | str s => simp [JSVal.truthy, bne_iff_ne]

lemma selectGo_cons (lang base : String) (progress : Store) (maxLen : Nat)
    (r : Store) (rs : List Store) (acc : List String) :
    selectGo lang base progress maxLen (r :: rs) acc =
      match eligibleText lang base progress maxLen r with
      | some s =>
        if s ∈ acc then selectGo lang base progress maxLen rs acc
        else selectGo lang base progress maxLen rs (acc ++ [s])
      | none => selectGo lang base progress maxLen rs acc := by
  by_cases h1 : (rget r lang).truthy = true
  · simp [selectGo, eligibleText, h1]
  · by_cases hA : (rget r base).truthy = true
    · by_cases hB : (rget progress (jsKey (rget r base))).truthy = true
      · simp [selectGo, eligibleText, h1, hA, hB]
      · by_cases hC : isTextSuitableForBatch (jsKey (rget r base)) maxLen = true
        · by_cases hmem : jsKey (rget r base) ∈ acc
          · simp [selectGo, eligibleText, h1, hA, hB, hC, hmem]
          · simp [selectGo, eligibleText, h1, hA, hB, hC, hmem]
        · simp [selectGo, eligibleText, h1, hA, hB, hC]
    · simp [selectGo, eligibleText, h1, hA]

lemma eligTexts_cons (lang base : String) (progress : Store) (maxLen : Nat)
    (r : Store) (rs : List Store) :
    eligTexts (r :: rs) lang base progress maxLen =
      match eligibleText lang base progress maxLen r with
      | some s => s :: eligTexts rs lang base progress maxLen
      | none => eligTexts rs lang base progress maxLen := by
  cases he : eligibleText lang base progress maxLen r <;>
    simp [eligTexts, List.filterMap_cons, he]

lemma selectGo_spec (lang base : String) (progress : Store) (maxLen : Nat) :
    ∀ (rs : List Store) (acc : List String), acc.Nodup →
      ∃ ex : List String,
        selectGo lang base progress maxLen rs acc = acc ++ ex ∧
        ex.Sublist (eligTexts rs lang base progress maxLen) ∧
        (∀ s ∈ ex, s ∉ acc) ∧
        (acc ++ ex).Nodup ∧
        (∀ s ∈ eligTexts rs lang base progress maxLen, s ∈ acc ++ ex) := by
  intro rs
  induction rs with
  | nil =>
    intro acc hacc
    refine ⟨[], by simp [selectGo], by simp [eligTexts], by simp, ?_, ?_⟩
    · simpa using hacc
    · simp [eligTexts]
  | cons r rs ih =>
    intro acc hacc
    rw [selectGo_cons, eligTexts_cons]
    cases he : eligibleText lang base progress maxLen r with
    | none => exact ih acc hacc
    | some s =>
      simp only [he]
      by_cases hmem : s ∈ acc
      · rw [if_pos hmem]
        obtain ⟨ex, h1, h2, h3, h4, h5⟩ := ih acc hacc
        refine ⟨ex, h1, List.Sublist.cons s h2, h3, h4, ?_⟩
        intro x hx
        rcases List.mem_cons.mp hx with rfl | hx2
        · exact List.mem_append.mpr (Or.inl hmem)
        · exact h5 x hx2
      · rw [if_neg hmem]
        have hacc2 : (acc ++ [s]).Nodup := by
          simp [List.nodup_append, hacc, hmem]
        obtain ⟨ex, h1, h2, h3, h4, h5⟩ := ih (acc ++ [s]) hacc2
        refine ⟨s :: ex, ?_, List.Sublist.cons₂ s h2, ?_, ?_, ?_⟩
        · rw [h1]; simp
        · intro x hx
          rcases List.mem_cons.mp hx with rfl | hx2
          · exact hmem
          · intro hxa
            exact h3 x hx2 (List.mem_append.mpr (Or.inl hxa))
        · have hre : acc ++ s :: ex = (acc ++ [s]) ++ ex := by simp
          rw [hre]; exact h4
        · intro x hx
          rcases List.mem_cons.mp hx with rfl | hx2
          · simp
          · have := h5 x hx2
            simp only [List.mem_append, List.mem_cons, List.mem_singleton] at this ⊢
            tauto

lemma eligibleText_props (lang base : String) (progress : Store) (maxLen : Nat)
    (r : Store) (s : String)
    (h : eligibleText lang base progress maxLen r = some s) :
    (rget r lang).truthy = false ∧ rget r base = .str s ∧ s ≠ "" ∧
    (rget progress s).truthy = false ∧ isTextSuitableForBatch s maxLen = true := by
  by_cases h1 : (rget r lang).truthy = true
  · simp [eligibleText, h1] at h
  · have h1f : (rget r lang).truthy = false := by
      simpa [Bool.not_eq_true] using h1
    simp only [eligibleText, h1, if_false] at h
    cases hcond : ((rget r base).truthy &&
        !(rget progress (jsKey (rget r base))).truthy &&
        isTextSuitableForBatch (jsKey (rget r base)) maxLen) with
    | false => simp [hcond] at h
    | true =>
      simp only [hcond, if_true] at h
      simp only [Bool.and_eq_true, Bool.not_eq_true'] at hcond
      obtain ⟨⟨hA, hB⟩, hC⟩ : ((rget r base).truthy = true ∧
          (rget progress (jsKey (rget r base))).truthy = false) ∧
          isTextSuitableForBatch (jsKey (rget r base)) maxLen = true := by
        tauto
      obtain ⟨s2, hs2, hs2ne⟩ := (JSVal.truthy_eq_true _).mp hA
      have hkey : jsKey (rget r base) = s2 := by rw [hs2]; rfl
      have hss : s2 = s := by
        rw [hkey] at h
        simpa using h
      subst hss
      rw [hkey] at hB hC
      exact ⟨h1f, by rw [hs2], hs2ne, hB, hC⟩

/-- First-occurrence deduplication with an explicit seen set: the
specification-side meaning of "deduplicated by exact equality while
preserving first-occurrence order". -/
def dedupKeepFirst (seen : List String) : List String → List String
  | [] => []
  | x :: xs =>
    if x ∈ seen then dedupKeepFirst seen xs
    else x :: dedupKeepFirst (x :: seen) xs

lemma dedupKeepFirst_congr :
    ∀ (l : List String) (s1 s2 : List String), (∀ x, x ∈ s1 ↔ x ∈ s2) →
      dedupKeepFirst s1 l = dedupKeepFirst s2 l
  | [], _, _, _ => rfl
  | x :: xs, s1, s2, h => by
    by_cases hx : x ∈ s1
    · rw [dedupKeepFirst, dedupKeepFirst, if_pos hx, if_pos ((h x).mp hx),
        dedupKeepFirst_congr xs s1 s2 h]
    · rw [dedupKeepFirst, dedupKeepFirst, if_neg hx,
        if_neg (fun m => hx ((h x).mpr m)),
        dedupKeepFirst_congr xs (x :: s1) (x :: s2) (fun y => by simp [h y])]

lemma selectGo_dedup (lang base : String) (progress : Store) (maxLen : Nat) :
    ∀ (rs : List Store) (acc : List String),
      selectGo lang base progress maxLen rs acc =
        acc ++ dedupKeepFirst acc (eligTexts rs lang base progress maxLen)
  | [], acc => by simp [selectGo, eligTexts, dedupKeepFirst]
  | r :: rs, acc => by
    rw [selectGo_cons, eligTexts_cons]
    cases he : eligibleText lang base progress maxLen r with
    | none =>
      simp only [he]
      exact selectGo_dedup lang base progress maxLen rs acc
    | some s =>
      simp only [he]
      by_cases hmem : s ∈ acc
      · rw [if_pos hmem,
          show dedupKeepFirst acc (s :: eligTexts rs lang base progress maxLen) =
            dedupKeepFirst acc (eligTexts rs lang base progress maxLen) by
              simp [dedupKeepFirst, hmem]]
        exact selectGo_dedup lang base progress maxLen rs acc
      · rw [if_neg hmem, selectGo_dedup lang base progress maxLen rs (acc ++ [s]),
          show dedupKeepFirst acc (s :: eligTexts rs lang base progress maxLen) =
            s :: dedupKeepFirst (s :: acc)
              (eligTexts rs lang base progress maxLen) by
              simp [dedupKeepFirst, hmem],
          dedupKeepFirst_congr (eligTexts rs lang base progress maxLen)
            (acc ++ [s]) (s :: acc) (fun y => by simp [or_comm])]
        simp

/-- Claim C5 counterexample: a source text whose progress entry exists but
holds the empty string is still selected for batching (the code tests
truthiness of `progress[sourceText]`, not presence of an entry). -/
theorem C5_counterexample :
    selectBatchTexts [[("key", .str "k"), ("en", .str "Hi"), ("fr", .str "")]]
      "fr" "en" [("Hi", .str "")] MAX_TEXT_LENGTH = ["Hi"] ∧
    hasKey [("Hi", .str "")] "Hi" = true := by decide

/-- Claim C5 (amended): a text is selected only if some row offers it with a
falsy destination cell, its progress entry (if any) is falsy, it is nonempty,
line-break-free and within the length bound; the selection is deduplicated
(case-sensitively), is a sublist of the eligible texts in row order, contains
every eligible text, and is exactly the first-occurrence deduplication of
the eligible-text sequence (the order-preservation property). -/
theorem C5_batch_selection (records : List Store) (lang base : String)
    (progress : Store) (maxLen : Nat) :
    (selectBatchTexts records lang base progress maxLen).Nodup ∧
    (selectBatchTexts records lang base progress maxLen).Sublist
      (eligTexts records lang base progress maxLen) ∧
    (∀ s ∈ selectBatchTexts records lang base progress maxLen,
      s ≠ "" ∧ (rget progress s).truthy = false ∧
      isTextSuitableForBatch s maxLen = true ∧
      ∃ r ∈ records, (rget r lang).truthy = false ∧ rget r base = .str s) ∧
    (∀ s ∈ eligTexts records lang base progress maxLen,
      s ∈ selectBatchTexts records lang base progress maxLen) ∧
    selectBatchTexts records lang base progress maxLen =
      dedupKeepFirst [] (eligTexts records lang base progress maxLen) := by
  obtain ⟨ex, h1, h2, h3, h4, h5⟩ :=
    selectGo_spec lang base progress maxLen records [] (by simp)
  have hsel : selectBatchTexts records lang base progress maxLen = ex := by
    simpa [selectBatchTexts] using h1
  refine ⟨?_, ?_, ?_, ?_, ?_⟩
  · rw [hsel]; simpa using h4
  · rw [hsel]; exact h2
  · intro s hs
    rw [hsel] at hs
    have hmem : s ∈ eligTexts records lang base progress maxLen := h2.subset hs
    obtain ⟨r, hr, he⟩ := List.mem_filterMap.mp hmem
    obtain ⟨p1, p2, p3, p4, p5⟩ := eligibleText_props lang base progress maxLen r s he
    exact ⟨p3, p4, p5, r, hr, p1, p2⟩
  · intro s hs
    rw [hsel]
    simpa using h5 s hs
  · simpa [selectBatchTexts] using
      selectGo_dedup lang base progress maxLen records []

/-- Witness for C5: the soundness conjunct at a concrete selected text. -/
theorem C5_batch_selection_witness :
    "Hi" ≠ "" ∧ (rget [("Hi", JSVal.str "")] "Hi").truthy = false ∧
    isTextSuitableForBatch "Hi" MAX_TEXT_LENGTH = true ∧
    ∃ r ∈ [[("en", JSVal.str "Hi"), ("fr", JSVal.str "")]],
      (rget r "fr").truthy = false ∧ rget r "en" = JSVal.str "Hi" :=
  (C5_batch_selection [[("en", JSVal.str "Hi"), ("fr", JSVal.str "")]]
    "fr" "en" [("Hi", JSVal.str "")] MAX_TEXT_LENGTH).2.2.1 "Hi" (by decide)

/-- Claim C6 counterexample: the progress store has an entry for the row's
source text (value: the empty string) and the destination cell is empty, yet
the item pass invokes the Translation Client (the trace is nonempty) and
overwrites the stored value instead of reusing it. -/
theorem C6_counterexample :
    hasKey [("Hi", JSVal.str "")] "Hi" = true ∧
    (rget [("key", JSVal.str "k"), ("en", JSVal.str "Hi"), ("fr", JSVal.str "")]
      "fr").truthy = false ∧
    (itemPass ⟨fun _ p => .ok p⟩ "fr" "en"
      [[("key", JSVal.str "k"), ("en", JSVal.str "Hi"), ("fr", JSVal.str "")]]
      [("Hi", JSVal.str "")] []).2.2 ≠ [] ∧
    rget (itemPass ⟨fun _ p => .ok p⟩ "fr" "en"
      [[("key", JSVal.str "k"), ("en", JSVal.str "Hi"), ("fr", JSVal.str "")]]
      [("Hi", JSVal.str "")] []).2.1 "Hi" ≠
      rget [("Hi", JSVal.str "")] "Hi" := by decide

/-- Claim C6 (amended): during the item pass, a row whose destination cell is
falsy and whose source text has a truthy progress entry is completed by
reusing the stored translation with no client invocation (the trace passed to
the remaining rows is unchanged); and truthy progress entries are never
modified by the item pass, so this holds for every row sharing that source
text. -/
theorem C6_progress_reuse :
    (∀ (env : Env) (lang base : String) (r : Store) (rs : List Store)
        (p : Store) (tr : Trace),
      (rget r lang).truthy = false →
      (rget p (jsKey (rget r base))).truthy = true →
      itemPass env lang base (r :: rs) p tr =
        (rset r lang (rget p (jsKey (rget r base))) ::
          (itemPass env lang base rs p tr).1,
         (itemPass env lang base rs p tr).2)) ∧
    (∀ (env : Env) (lang base : String) (records : List Store) (p : Store)
        (tr : Trace) (k : String),
      (rget p k).truthy = true →
      rget (itemPass env lang base records p tr).2.1 k = rget p k) := by
  constructor
  · intro env lang base r rs p tr hdest hentry
    simp [itemPass, hdest, hentry]
  · intro env lang base records p tr k
    induction records generalizing p tr with
    | nil => intro _; simp [itemPass]
    | cons r rs ih =>
      intro hk
      by_cases hdest : (rget r lang).truthy = true
      · simp only [itemPass, hdest, if_true]
        exact ih p tr hk
      · by_cases hent : (rget p (jsKey (rget r base))).truthy = true
        · simp only [itemPass, hdest, hent, if_true, if_false, Bool.false_eq_true]
          exact ih p tr hk
        · rcases htt : translateText env (rget r base) tr with ⟨res, tr2⟩
          cases res with
          | ok v =>
            have hne : k ≠ jsKey (rget r base) := by
              intro e
              rw [e] at hk
              exact hent hk
            have hp2 : rget (rset p (jsKey (rget r base)) v) k = rget p k :=
              rget_rset_ne p (jsKey (rget r base)) k v hne
            have hk2 : (rget (rset p (jsKey (rget r base)) v) k).truthy = true := by
              rw [hp2]; exact hk
            simp only [itemPass, hdest, hent, htt, if_false, Bool.false_eq_true]
            rw [ih (rset p (jsKey (rget r base)) v) tr2 hk2, hp2]
          | error e =>
            simp only [itemPass, hdest, hent, htt, if_false, Bool.false_eq_true]
            exact ih p tr2 hk

/-- Witness for C6: both conjuncts at a concrete row with a stored
truthy translation. -/
theorem C6_progress_reuse_witness :
    itemPass ⟨fun _ p2 => .ok p2⟩ "fr" "en"
        [[("en", JSVal.str "Hi"), ("fr", JSVal.str "")]]
        [("Hi", JSVal.str "Salut")] [] =
      (rset [("en", JSVal.str "Hi"), ("fr", JSVal.str "")] "fr"
          (rget [("Hi", JSVal.str "Salut")]
            (jsKey (rget [("en", JSVal.str "Hi"), ("fr", JSVal.str "")] "en"))) ::
        (itemPass ⟨fun _ p2 => .ok p2⟩ "fr" "en" []
          [("Hi", JSVal.str "Salut")] []).1,
       (itemPass ⟨fun _ p2 => .ok p2⟩ "fr" "en" []
          [("Hi", JSVal.str "Salut")] []).2) ∧
    rget (itemPass ⟨fun _ p2 => .ok p2⟩ "fr" "en"
        [[("en", JSVal.str "Hi"), ("fr", JSVal.str "")]]
        [("Hi", JSVal.str "Salut")] []).2.1 "Hi" =
      rget [("Hi", JSVal.str "Salut")] "Hi" :=
  ⟨C6_progress_reuse.1 ⟨fun _ p2 => .ok p2⟩ "fr" "en"
      [("en", JSVal.str "Hi"), ("fr", JSVal.str "")] []
      [("Hi", JSVal.str "Salut")] [] (by decide) (by decide),
   C6_progress_reuse.2 ⟨fun _ p2 => .ok p2⟩ "fr" "en"
      [[("en", JSVal.str "Hi"), ("fr", JSVal.str "")]]
      [("Hi", JSVal.str "Salut")] [] "Hi" (by decide)⟩

lemma map_col_of_pointwise {f : Store → Store} (col : String)
    (hf : ∀ r, rget (f r) col = rget r col) (records : List Store) :
    (records.map f).map (fun r => rget r col) =
      records.map (fun r => rget r col) := by
  induction records with
  | nil => rfl
  | cons r rs ih => simp [hf, ih]

lemma rebuildPass_col (records : List Store) (lang base : String) (p : Store)
    (col : String) (h : col ≠ lang) :
    (rebuildPass records lang base p).map (fun r => rget r col) =
      records.map (fun r => rget r col) := by
  simp only [rebuildPass]
  apply map_col_of_pointwise
  intro r
  by_cases hc : (rget p (jsKey (rget r base))).truthy = true
  · simp [hc]
  · simp [hc, rget_rset_ne _ _ _ _ h]

lemma syncRecords_col (records : List Store) (p : Store) (base2 lang : String)
    (col : String) (h : col ≠ lang) :
    (syncRecords records p base2 lang).map (fun r => rget r col) =
      records.map (fun r => rget r col) := by
  simp only [syncRecords]
  apply map_col_of_pointwise
  intro r
  by_cases hc : (rget p (jsKey (rget r base2))).truthy = true
  · simp [hc, rget_rset_ne _ _ _ _ h]
  · simp [hc]

lemma itemPass_col (env : Env) (lang base col : String) (h : col ≠ lang) :
    ∀ (records : List Store) (p : Store) (tr : Trace),
      ((itemPass env lang base records p tr).1).map (fun r => rget r col) =
        records.map (fun r => rget r col) := by
  intro records
  induction records with
  | nil => intro p tr; simp [itemPass]
  | cons r rs ih =>
    intro p tr
    by_cases hdest : (rget r lang).truthy = true
    · simp only [itemPass, hdest, if_true, List.map_cons]
      rw [ih p tr]
    · by_cases hent : (rget p (jsKey (rget r base))).truthy = true
      · simp only [itemPass, hdest, hent, if_true, if_false, Bool.false_eq_true,
          List.map_cons]
        rw [ih p tr, rget_rset_ne _ _ _ _ h]
      · rcases htt : translateText env (rget r base) tr with ⟨res, tr2⟩
        cases res with
        | ok v =>
          simp only [itemPass, hdest, hent, htt, if_false, Bool.false_eq_true,
            List.map_cons]
          rw [ih _ tr2, rget_rset_ne _ _ _ _ h]
        | error e =>
          simp only [itemPass, hdest, hent, htt, if_false, Bool.false_eq_true,
            List.map_cons]
          rw [ih p tr2]

lemma processBatch_records (env : Env) (records : List Store)
    (lang base : String) (bs ml : Nat) (p : Store) (tr : Trace)
    (out : List Store × Store × Trace)
    (h : processBatchTranslations env records lang base bs ml p tr = POut.ok out) :
    out.1 = records ∨ ∃ p2, out.1 = syncRecords records p2 base lang := by
  by_cases hempty : selectBatchTexts records lang base p ml = []
  · simp only [processBatchTranslations, hempty, if_pos, POut.ok.injEq] at h
    left
    rw [← h]
  · simp only [processBatchTranslations, hempty, if_neg, if_false] at h
    rcases hbl : batchLoop env (chunks bs (selectBatchTexts records lang base p ml))
        p tr with _ | ⟨p2, tr2⟩
    · rw [hbl] at h
      simp at h
    · rw [hbl] at h
      simp only [POut.ok.injEq] at h
      right
      exact ⟨p2, by rw [← h]⟩

/-- Claim C8 counterexample: running with the base language itself as the
target language and the rebuild flag set clears the base-language column (the
rebuild step writes `null` into `record[lang]` with `lang = baseLanguage`),
so the base column does not keep its loaded value. -/
theorem C8_counterexample :
    runSingleLanguage ⟨fun _ _ => .error none⟩ "en" "en" true true
      MAX_BATCH_SIZE MAX_TEXT_LENGTH
      [[("key", JSVal.str "k1"), ("en", JSVal.str "Hello"), ("fr", JSVal.str "")]]
      [] [] =
    POut.ok ([[("key", JSVal.str "k1"), ("en", JSVal.null), ("fr", JSVal.str "")]],
      [("null", JSVal.null)], []) ∧
    JSVal.null ≠ JSVal.str "Hello" := by decide

/-- Claim C8 (amended): whenever the processed target language differs from
the base language, a completed run leaves the base-language column of every
row exactly as loaded, whatever the rows, progress store, remote behaviour,
rebuild flag and batch settings. -/
theorem C8_base_column (env : Env) (lang base : String)
    (rebuild skipBatch : Bool) (bs ml : Nat) (records : List Store)
    (p : Store) (tr : Trace) (out : List Store × Store × Trace)
    (hlb : lang ≠ base)
    (hrun : runSingleLanguage env lang base rebuild skipBatch bs ml records p tr =
      POut.ok out) :
    out.1.map (fun r => rget r base) = records.map (fun r => rget r base) := by
  have hcol : base ≠ lang := Ne.symm hlb
  have hmap1 : (if rebuild then rebuildPass records lang base p else records).map
      (fun r => rget r base) = records.map (fun r => rget r base) := by
    cases rebuild
    · simp
    · simpa using rebuildPass_col records lang base p base hcol
  simp only [runSingleLanguage] at hrun
  generalize hstage : (if skipBatch then
      POut.ok ((if rebuild then rebuildPass records lang base p else records), p, tr)
    else processBatchTranslations env
      (if rebuild then rebuildPass records lang base p else records)
      lang base bs ml p tr) = stage at hrun
  cases stage with
  | exit1 => simp at hrun
  | ok trip =>
    obtain ⟨r2, p2, tr2⟩ := trip
    simp only [POut.ok.injEq] at hrun
    have hmap2 : r2.map (fun r => rget r base) =
        records.map (fun r => rget r base) := by
      cases skipBatch
      · simp only [Bool.false_eq_true, if_false] at hstage
        rcases processBatch_records env _ lang base bs ml p tr (r2, p2, tr2)
            hstage with hA | ⟨p3, hB⟩
        · rw [show r2 = (if rebuild then rebuildPass records lang base p
              else records) from hA]
          exact hmap1
        · rw [show r2 = syncRecords (if rebuild then rebuildPass records lang base p
              else records) p3 base lang from hB]
          rw [syncRecords_col _ _ _ _ _ hcol]
          exact hmap1
      · simp only [if_pos, POut.ok.injEq, Prod.mk.injEq] at hstage
        rw [← hstage.1]
        exact hmap1
    rw [← hrun]
    show (syncRecords (syncRecords (itemPass env lang base r2 p2 tr2).1
      (itemPass env lang base r2 p2 tr2).2.1 base lang)
      (itemPass env lang base r2 p2 tr2).2.1 base lang).map (fun r => rget r base) =
      records.map (fun r => rget r base)
    rw [syncRecords_col _ _ _ _ _ hcol, syncRecords_col _ _ _ _ _ hcol,
      itemPass_col env lang base base hcol r2 p2 tr2, hmap2]

/-- Witness for C8: a completed concrete run with target "fr" over base "en"
leaves the base column untouched. -/
theorem C8_base_column_witness :
    ([[("key", JSVal.str "k1"), ("en", JSVal.str "Hello"),
        ("fr", JSVal.str "Hello")]] : List Store).map (fun r => rget r "en") =
    ([[("key", JSVal.str "k1"), ("en", JSVal.str "Hello"),
        ("fr", JSVal.str "")]] : List Store).map (fun r => rget r "en") :=
  C8_base_column ⟨fun _ p2 => .ok p2⟩ "fr" "en" false true
    MAX_BATCH_SIZE MAX_TEXT_LENGTH
    [[("key", JSVal.str "k1"), ("en", JSVal.str "Hello"), ("fr", JSVal.str "")]]
    [] []
    ([[("key", JSVal.str "k1"), ("en", JSVal.str "Hello"),
       ("fr", JSVal.str "Hello")]],
     [("Hello", JSVal.str "Hello")], ["Hello"])
    (by decide) (by decide)

/-- Claim C7 counterexample: a failed write of the progress file is swallowed
by `saveProgressFile` (normal return), and even inside `saveCurrentProgress`
the caller sees success when only the progress-file write failed — the
failure is not propagated as fatal. -/
theorem C7_counterexample :
    saveProgressFile (Except.error ()) = Except.ok () ∧
    saveCurrentProgress true (Except.error ()) (Except.ok ()) = Except.ok () := by
  decide

/-- Claim C7 (amended): a failed or absent progress-file read yields the
empty mapping and is non-fatal; a failed write of the tabular output is
rethrown by `saveCurrentProgress` to its caller; but a failed write of the
progress file is logged and swallowed, never propagated. -/
theorem C7_persistence :
    loadProgressFile ProgressFileRead.failure = [] ∧
    loadProgressFile ProgressFileRead.absent = [] ∧
    (∀ wp : Except Unit Unit,
      saveCurrentProgress true wp (Except.error ()) = Except.error ()) ∧
    (∀ w : Except Unit Unit, saveProgressFile w = Except.ok ()) := by
  refine ⟨rfl, rfl, ?_, ?_⟩
  · intro wp
    cases wp <;> rfl
  · intro w
    cases w <;> rfl
